import Mathlib

/-!
Verification development for the `robust_lda` stability-scoring library
(`robust_lda.py`).  The Python source is shallowly embedded: Python values
appearing in parameter dictionaries become the inductive `PyVal`, Python
dictionaries become association lists, numpy float arithmetic is modelled
over `ℚ` with `Option ℚ` used for NaN results (`none` = NaN), and Python
exceptions are modelled with `Except String`.  External collaborators
(the scipy metrics, numpy sqrt, the sobol generator and the sklearn fit
procedures) are kept abstract, exactly as the design treats them: they
enter as explicit function parameters.
-/

/-- Values that can appear in a Python parameter dictionary: ints, floats
(modelled as rationals), strings, `None`, and lists. -/
inductive PyVal : Type
  | vint (i : ℤ)
  | vrat (q : ℚ)
  | vstr (s : String)
  | vnone
  | vlist (l : List PyVal)

/-- The `type` field of a parameter specification (`int`, `float`, `str`). -/
inductive PyType : Type
  | tint
  | tfloat
  | tstr
deriving DecidableEq, Repr

/-- One entry of a `params` dictionary: `{"type": ..., "mode": ..., "values": ...}`. -/
structure ParamSpec : Type where
  type : PyType
  mode : String
  values : PyVal

/-- A sampled configuration: Python dict from parameter name to value,
modelled as an association list in insertion order. -/
abbrev Config := List (String × PyVal)

/-- Numeric coercion used by the arithmetic in `_range_to_value`:
Python ints and floats are numbers, everything else raises. -/
def pyNum : PyVal → Option ℚ
  | .vint i => some (i : ℚ)
  | .vrat q => some q
  | _ => none

/-- Python `int(x)` on a float: truncation toward zero. -/
def pyTrunc (q : ℚ) : ℤ := if 0 ≤ q then ⌊q⌋ else ⌈q⌉

/-- Python list indexing `l[i]` with an integer index: supports negative
indices (counting from the end) and raises `IndexError` otherwise. -/
def pyGetI (l : List PyVal) (i : ℤ) : Except String PyVal :=
  let j := if i < 0 then i + l.length else i
  if h : 0 ≤ j ∧ j.toNat < l.length then .ok (l.get ⟨j.toNat, h.2⟩)
  else .error "IndexError"

/-- `_range_to_value(p_range, sampling, p_type)`:
`value = p_range[0] + (p_range[1] - p_range[0]) * sampling`, truncated with
`int(...)` when the declared type is `int`.  Indexing / arithmetic on a
non-numeric `values` raises. -/
def range_to_value (p_range : PyVal) (sampling : ℚ) (p_type : PyType) :
    Except String PyVal :=
  match p_range with
  | .vlist l =>
    match (l[0]?).bind pyNum, (l[1]?).bind pyNum with
    | some lo, some hi =>
      let value := lo + (hi - lo) * sampling
      .ok (if p_type = .tint then .vint (pyTrunc value) else .vrat value)
    | _, _ => .error "TypeError"
  | _ => .error "TypeError"

/-- `_list_to_value(p_values, sampling, p_type)`:
`p_values[min(math.floor(sampling*len(p_values)), len(p_values)-1)]`. -/
def list_to_value (p_values : PyVal) (sampling : ℚ) (_p_type : PyType) :
    Except String PyVal :=
  match p_values with
  | .vlist l => pyGetI l (min ⌊sampling * (l.length : ℚ)⌋ ((l.length : ℤ) - 1))
  | _ => .error "TypeError"

/-- `_param_to_value(param, sampling)`: dispatch on `mode`.  For a mode that
is neither `"range"` nor `"list"` the Python function falls through and
implicitly returns `None`. -/
def param_to_value (param : ParamSpec) (sampling : ℚ) : Except String PyVal :=
  if param.mode = "range" then range_to_value param.values sampling param.type
  else if param.mode = "list" then list_to_value param.values sampling param.type
  else .ok .vnone

/-- The inner loop of `_compute_param_combinations`: for the i-th changing
parameter, `sample[name] = _param_to_value(params[name], vec[i])`; running
off the end of `vec` raises `IndexError`. -/
def buildVarying : List (String × ParamSpec) → List ℚ → Except String Config
  | [], _ => .ok []
  | _ :: _, [] => .error "IndexError"
  | p :: rest, x :: xs => do
    let v ← param_to_value p.2 x
    let tail ← buildVarying rest xs
    pure ((p.1, v) :: tail)

/-- Builds one sampled configuration from one sobol point: changing
parameters first (in declaration order), then the fixed parameters copied
verbatim (`sample[name] = params[name]["values"]`). -/
def sampleOfVec (changing fixed : List (String × ParamSpec)) (vec : List ℚ) :
    Except String Config := do
  let varied ← buildVarying changing vec
  pure (varied ++ fixed.map (fun p => (p.1, p.2.values)))

/-- The `for vec in sobol_seq.i4_sobol_generate(...)` loop of
`_compute_param_combinations`, accumulating `seq`. -/
def combLoop (changing fixed : List (String × ParamSpec)) :
    List (List ℚ) → Except String (List Config)
  | [] => .ok []
  | vec :: rest => do
    let s ← sampleOfVec changing fixed vec
    let r ← combLoop changing fixed rest
    pure (s :: r)

/-- `_compute_param_combinations(params, n_samples)`.  The sobol generator is
an external capability; its output (`n_samples` points in the unit
hypercube of dimension `len(params)`) is passed in as `points`. -/
def compute_param_combinations (params : List (String × ParamSpec))
    (points : List (List ℚ)) : Except String (List Config) :=
  combLoop (params.filter (fun p => p.2.mode ≠ "fixed"))
    (params.filter (fun p => p.2.mode = "fixed")) points

/-- One trained model run (`TrainedModelArtifact`): a fitted sklearn topic
model, exposed through its `components_` matrix (one row of term weights
per topic). -/
structure ModelArtifact : Type where
  components_ : List (List ℚ)
deriving DecidableEq

/-- `model.n_components` of a fitted model: the number of topic rows. -/
def ModelArtifact.n_components (m : ModelArtifact) : ℕ := m.components_.length

/-- Stable insertion of `x` into a sorted list, used to model sorting. -/
def insertAsc (le : ℕ → ℕ → Bool) (x : ℕ) : List ℕ → List ℕ
  | [] => [x]
  | y :: ys => if le x y then x :: y :: ys else y :: insertAsc le x ys

/-- Insertion sort with a boolean `≤` test (stable). -/
def sortAsc (le : ℕ → ℕ → Bool) (l : List ℕ) : List ℕ :=
  l.foldr (insertAsc le) []

/-- `topic.argsort()`: the indices of `row` sorted by ascending weight. -/
def argsort (row : List ℚ) : List ℕ :=
  sortAsc (fun i j => decide (row.getD i 0 ≤ row.getD j 0)) (List.range row.length)

/-- `_get_top_terms(model, n_terms)`: per topic, `topic.argsort()[:-n_terms-1:-1]`,
i.e. the indices of the `n_terms` highest-weight features, descending. -/
def get_top_terms (model : ModelArtifact) (n_terms : ℕ) : List (List ℕ) :=
  model.components_.map (fun topic => (argsort topic).reverse.take n_terms)

/-- `_terms_to_ranking(terms, vocab)`: for each vocabulary element its
0-based position in `terms` (`terms.index(e)`), or `len(vocab)` if absent. -/
def terms_to_ranking (terms : List ℕ) (vocab : List ℕ) : List ℕ :=
  vocab.map (fun e => if e ∈ terms then terms.indexOf e else vocab.length)

/-- `vocab.update(xs)` on the Python set `vocab`, modelled as a duplicate-free
list in first-insertion order. -/
def vocabUpdate (vocab : List ℕ) (xs : List ℕ) : List ℕ :=
  xs.foldl (fun v e => if e ∈ v then v else v ++ [e]) vocab

/-- The `vocab` set accumulated by `_create_ranking_vectors`: one single set
per model family, updated with the flattened top terms of every run of
every sampled configuration. -/
def vocabOfTerms (sample_terms : List (List (List (List ℕ)))) : List ℕ :=
  sample_terms.foldl (fun v terms => terms.foldl (fun v tt => vocabUpdate v tt.flatten) v) []

/-- The `sample_terms` intermediate of `_create_ranking_vectors`: per
configuration, per run, the list of top-term lists. -/
def sampleTermsOf (n_relevant : ℕ) (samples : List (List ModelArtifact)) :
    List (List (List (List ℕ))) :=
  samples.map (fun sample => sample.map (fun m => get_top_terms m n_relevant))

/-- `_create_ranking_vectors(settings)`: builds the family-wide vocabulary
and, per configuration, per run, per topic, the rank vector over it. -/
def create_ranking_vectors (n_relevant : ℕ) (samples : List (List ModelArtifact)) :
    List (List (List (List ℕ))) :=
  let sample_terms := sampleTermsOf n_relevant samples
  let vocab_vec := vocabOfTerms sample_terms
  sample_terms.map (fun terms =>
    terms.map (fun model_terms => model_terms.map (fun t => terms_to_ranking t vocab_vec)))

/-- `_jaccard_similarity(a, b)`: `|set(a) ∩ set(b)| / |set(a) ∪ set(b)|`. -/
def jaccard_similarity (a b : List ℕ) : ℚ :=
  ((a.toFinset ∩ b.toFinset).card : ℚ) / ((a.toFinset ∪ b.toFinset).card : ℚ)

/-- `scipy.spatial.distance.pdist(X, metric)`: the upper triangle of the
pairwise comparison matrix, row by row. -/
def pdist {α : Type} (metric : α → α → ℚ) : List α → List ℚ
  | [] => []
  | x :: xs => xs.map (metric x) ++ pdist metric xs

/-- The external numeric collaborators: the scipy rank-correlation and
distribution-distance routines and numpy square root, treated as opaque
capabilities exactly as the design prescribes. -/
structure ExternalFns : Type where
  kendalltau : List ℚ → List ℚ → ℚ
  spearmanr : List ℚ → List ℚ → ℚ
  jensenshannon : List ℚ → List ℚ → ℚ
  wasserstein_distance : List ℚ → List ℚ → ℚ
  sqrt : ℚ → ℚ

/-- `arr.mean()` over the whole 2-D array: NaN (modelled `none`) when the
array has no elements, which numpy reports as a warning, not an error. -/
def npMeanAll (rows : List (List ℚ)) : Option ℚ :=
  let xs := rows.flatten
  if xs.length = 0 then none else some (xs.sum / xs.length)

/-- `arr.mean(axis=1)`: per row; numpy raises an axis error on a 1-D
(zero-row) array, and yields NaN for an empty row. -/
def npMeanAx1 (rows : List (List ℚ)) : Except String (List (Option ℚ)) :=
  if rows.length = 0 then .error "AxisError"
  else .ok (rows.map (fun r => if r.length = 0 then none else some (r.sum / r.length)))

/-- `arr.std(axis=1)` (population std): square root of the mean squared
deviation per row; NaN for an empty row, axis error on a zero-row array. -/
def npStdAx1 (sq : ℚ → ℚ) (rows : List (List ℚ)) : Except String (List (Option ℚ)) :=
  if rows.length = 0 then .error "AxisError"
  else .ok (rows.map (fun r =>
    if r.length = 0 then none
    else some (sq ((r.map (fun x => (x - r.sum / r.length) ^ 2)).sum / r.length))))

/-- Row-wise minimum; an empty row is a zero-size reduction and raises. -/
def rowsMin : List (List ℚ) → Except String (List ℚ)
  | [] => .ok []
  | [] :: _ => .error "ValueError"
  | (x :: xs) :: rest => do
    let r ← rowsMin rest
    pure ((xs.foldl min x) :: r)

/-- Row-wise maximum; an empty row is a zero-size reduction and raises. -/
def rowsMax : List (List ℚ) → Except String (List ℚ)
  | [] => .ok []
  | [] :: _ => .error "ValueError"
  | (x :: xs) :: rest => do
    let r ← rowsMax rest
    pure ((xs.foldl max x) :: r)

/-- `arr.min(axis=1)`. -/
def npMinAx1 (rows : List (List ℚ)) : Except String (List ℚ) :=
  if rows.length = 0 then .error "AxisError" else rowsMin rows

/-- `arr.max(axis=1)`. -/
def npMaxAx1 (rows : List (List ℚ)) : Except String (List ℚ) :=
  if rows.length = 0 then .error "AxisError" else rowsMax rows

/-- The per-measure block of a `report_full` entry: mean/std/min/max per
topic (reduced over the pair axis). -/
structure MeasureStats : Type where
  mean : List (Option ℚ)
  std : List (Option ℚ)
  min : List ℚ
  max : List ℚ
deriving DecidableEq

/-- The `{"mean": ..., "std": ..., "min": ..., "max": ...}` dictionary of
`report_full`, evaluated in source order (so the first raising reduction is
`min`, after the NaN-producing `mean` and `std`). -/
def buildStats (sq : ℚ → ℚ) (rows : List (List ℚ)) : Except String MeasureStats := do
  let m ← npMeanAx1 rows
  let s ← npStdAx1 sq rows
  let lo ← npMinAx1 rows
  let hi ← npMaxAx1 rows
  pure ⟨m, s, lo, hi⟩

/-- A `report` entry (`StabilityReport`): metadata plus the scalar mean of
each of the five measures (NaN modelled as `none`). -/
structure Report : Type where
  model : String
  sample_id : ℕ
  n_topics : ℕ
  params : Config
  jaccard : Option ℚ
  kendallstau : Option ℚ
  spearman : Option ℚ
  jensenshannon : Option ℚ
  wasserstein : Option ℚ

/-- A `report_full` entry (`FullStabilityReport`): metadata plus per-topic
statistics of each measure. -/
structure ReportFull : Type where
  model : String
  sample_id : ℕ
  n_topics : ℕ
  params : Config
  jaccard : MeasureStats
  kendalltau : MeasureStats
  spearman : MeasureStats
  jensenshannon : MeasureStats
  wasserstein : MeasureStats

/-- A `ModelFamilyContext`: the `model_informations` dictionary built by the
`load_*_data` methods and filled in by fitting and reporting. -/
structure ModelSettings : Type where
  n_samples : ℕ
  data : List (List ℚ)
  params : List (String × ParamSpec)
  sampling : List Config
  samples : List (List ModelArtifact)
  topic_terms : List (List (List (List ℕ)))
  report : List Report
  report_full : List ReportFull

/-- Row normalization `model.components_ / model.components_.sum(axis=1)[:, np.newaxis]`. -/
def normalizeRows (m : List (List ℚ)) : List (List ℚ) :=
  m.map (fun r => r.map (fun x => x / r.sum))

/-- The per-topic array of one measure: row `topic` holds the pairwise
values returned by `pdist` for that topic. -/
def topicRows (n_topics : ℕ) (f : ℕ → List ℚ) : List (List ℚ) :=
  (List.range n_topics).map f

/-- The first stage of the per-sample body of `_compute_topic_stability`:
`n_topics = sample[0].n_components` (raising on an empty run-group), the
top-term lists of every run, and the normalized term distributions. -/
def sampleTermsStage (n_relevant : ℕ) (sample : List ModelArtifact) :
    Except String (ℕ × List (List (List ℕ)) × List (List (List ℚ))) :=
  match sample with
  | [] => .error "IndexError"
  | first :: _ =>
    .ok (first.n_components,
      sample.map (fun m => get_top_terms m n_relevant),
      sample.map (fun m => normalizeRows m.components_))

/-- The second stage of the per-sample body: the five per-topic pairwise
measure arrays, the scalar `report` entry and the `report_full` entry.
Building `report_full` raises when a zero-size reduction occurs (fewer
than two runs, or zero topics). -/
def sampleReport (ext : ExternalFns) (name : String) (sampling_params : Config)
    (sample_id n_topics : ℕ) (terms : List (List (List ℕ)))
    (term_distributions : List (List (List ℚ))) (rvec : List (List (List ℕ))) :
    Except String (Report × ReportFull) := do
  let jaccardRows := topicRows n_topics (fun topic =>
    pdist jaccard_similarity (terms.map (fun run => run.getD topic [])))
  let jensenRows := topicRows n_topics (fun topic =>
    pdist (fun a b => 1 - ext.jensenshannon a b)
      (term_distributions.map (fun run => run.getD topic [])))
  let wasserRows := topicRows n_topics (fun topic =>
    pdist (fun a b => 1 - ext.wasserstein_distance a b)
      (term_distributions.map (fun run => run.getD topic [])))
  let kendallRows := topicRows n_topics (fun topic =>
    pdist ext.kendalltau (rvec.map (fun run => (run.getD topic []).map (fun x => (x : ℚ)))))
  let spearRows := topicRows n_topics (fun topic =>
    pdist ext.spearmanr (rvec.map (fun run => (run.getD topic []).map (fun x => (x : ℚ)))))
  let report : Report :=
    { model := name, sample_id := sample_id, n_topics := n_topics,
      params := sampling_params,
      jaccard := npMeanAll jaccardRows, kendallstau := npMeanAll kendallRows,
      spearman := npMeanAll spearRows, jensenshannon := npMeanAll jensenRows,
      wasserstein := npMeanAll wasserRows }
  let jacS ← buildStats ext.sqrt jaccardRows
  let kenS ← buildStats ext.sqrt kendallRows
  let speS ← buildStats ext.sqrt spearRows
  let jenS ← buildStats ext.sqrt jensenRows
  let wasS ← buildStats ext.sqrt wasserRows
  pure (report,
    { model := name, sample_id := sample_id, n_topics := n_topics,
      params := sampling_params,
      jaccard := jacS, kendalltau := kenS, spearman := speS,
      jensenshannon := jenS, wasserstein := wasS })

/-- The `for sample_id, sample in enumerate(settings["samples"])` loop of
`_compute_topic_stability`, mutating the settings in place; a raised
exception leaves the partially mutated settings behind (in particular the
`topic_terms` append precedes the report computation). -/
def stabLoop (ext : ExternalFns) (n_relevant : ℕ) (name : String)
    (sampling : List Config) (rvecs : List (List (List (List ℕ)))) :
    ℕ → List (List ModelArtifact) → ModelSettings → ModelSettings × Option String
  | _, [], s => (s, none)
  | sid, sample :: rest, s =>
    match sampleTermsStage n_relevant sample with
    | .error e => (s, some e)
    | .ok (nt, terms, dists) =>
      let s1 := { s with topic_terms := s.topic_terms ++ [terms] }
      match sampleReport ext name (sampling.getD sid []) sid nt terms dists
          (rvecs.getD sid []) with
      | .error e => (s1, some e)
      | .ok (rep, repf) =>
        stabLoop ext n_relevant name sampling rvecs (sid + 1) rest
          { s1 with report := s1.report ++ [rep], report_full := s1.report_full ++ [repf] }

/-- `_compute_topic_stability` restricted to one model family entry:
build the ranking vectors, then run the per-sample loop. -/
def computeSettingsStability (ext : ExternalFns) (n_relevant : ℕ) (name : String)
    (s : ModelSettings) : ModelSettings × Option String :=
  stabLoop ext n_relevant name s.sampling (create_ranking_vectors n_relevant s.samples)
    0 s.samples s

/-- `_compute_topic_stability`: the `for name, settings in self.models.items()`
loop.  An exception stops the loop, leaving later entries untouched. -/
def compute_topic_stability (ext : ExternalFns) (n_relevant : ℕ) :
    List (String × ModelSettings) → List (String × ModelSettings) × Option String
  | [] => ([], none)
  | (name, s) :: rest =>
    match computeSettingsStability ext n_relevant name s with
    | (s1, some e) => ((name, s1) :: rest, some e)
    | (s1, none) =>
      let r := compute_topic_stability ext n_relevant rest
      ((name, s1) :: r.1, r.2)

/-- The external model-fit capability for one family: configuration, data
and the 1-based iteration counter in, trained artifact or exception out. -/
def FitFn : Type := Config → List (List ℚ) → ℕ → Except String ModelArtifact

/-- The `for it in range(1, self.n_iterations+1)` loop body of `fit_models`:
appends a freshly fitted artifact for the `sklearn_lda` / `sklearn_nmf`
families and appends nothing for any other family name. -/
def iterLoop (fitLda fitNmf : FitFn) (name : String) (sample : Config)
    (data : List (List ℚ)) : List ℕ → Except String (List ModelArtifact)
  | [] => .ok []
  | it :: rest =>
    if name = "sklearn_lda" then do
      let m ← fitLda sample data it
      let r ← iterLoop fitLda fitNmf name sample data rest
      pure (m :: r)
    else if name = "sklearn_nmf" then do
      let m ← fitNmf sample data it
      let r ← iterLoop fitLda fitNmf name sample data rest
      pure (m :: r)
    else iterLoop fitLda fitNmf name sample data rest

/-- The `model_iterations` run-group collected for one configuration. -/
def model_iterations (fitLda fitNmf : FitFn) (name : String) (sample : Config)
    (data : List (List ℚ)) (n_iterations : ℕ) : Except String (List ModelArtifact) :=
  iterLoop fitLda fitNmf name sample data ((List.range n_iterations).map (· + 1))

/-- The `for sample in settings["sampling"]` loop of `fit_models`: each
completed run-group is appended to `settings["samples"]`; a raised fit
aborts the loop before appending the failing configuration. -/
def fitLoop (fitLda fitNmf : FitFn) (name : String) (n_iterations : ℕ) :
    List Config → ModelSettings → ModelSettings × Option String
  | [], s => (s, none)
  | c :: rest, s =>
    match model_iterations fitLda fitNmf name c s.data n_iterations with
    | .error e => (s, some e)
    | .ok group =>
      fitLoop fitLda fitNmf name n_iterations rest
        { s with samples := s.samples ++ [group] }

/-- The `for name, settings in self.models.items()` loop of `fit_models`. -/
def fitModelsLoop (fitLda fitNmf : FitFn) (n_iterations : ℕ) :
    List (String × ModelSettings) → List (String × ModelSettings) × Option String
  | [] => ([], none)
  | (name, s) :: rest =>
    match fitLoop fitLda fitNmf name n_iterations s.sampling s with
    | (s1, some e) => ((name, s1) :: rest, some e)
    | (s1, none) =>
      let r := fitModelsLoop fitLda fitNmf n_iterations rest
      ((name, s1) :: r.1, r.2)

/-- `fit_models`: fit every configuration of every registered family, then
run `_compute_topic_stability`.  A raised exception propagates and leaves
the partially populated contexts behind. -/
def fit_models (fitLda fitNmf : FitFn) (ext : ExternalFns)
    (n_iterations n_relevant : ℕ) (models : List (String × ModelSettings)) :
    List (String × ModelSettings) × Option String :=
  match fitModelsLoop fitLda fitNmf n_iterations models with
  | (ms, some e) => (ms, some e)
  | (ms, none) => compute_topic_stability ext n_relevant ms

/-- The state of a `RobustTopics` instance.  `rank_metric` and
`distribution_metric` model the corresponding Python attributes: `none`
means the attribute is not set on the object, so reading it raises
`AttributeError`.  No method of the class ever assigns either. -/
structure RobustTopics : Type where
  n_iterations : ℕ
  n_relevant_top_words : ℕ
  models : List (String × ModelSettings)
  rank_metric : Option String
  distribution_metric : Option String

/-- `RobustTopics.__init__(n_iterations, n_relevant_top_words)`: sets the two
counters and the empty model registry; `rank_metric` and
`distribution_metric` are never assigned. -/
def RobustTopics.init (n_iterations n_relevant_top_words : ℕ) : RobustTopics :=
  { n_iterations := n_iterations, n_relevant_top_words := n_relevant_top_words,
    models := [], rank_metric := none, distribution_metric := none }

/-- Dictionary access `s[key]` on a `report` record: the five measure keys
(note the report stores the Kendall value under `"kendallstau"`), anything
else raises `KeyError`. -/
def reportItem (s : Report) (key : String) : Except String (Option ℚ) :=
  if key = "jaccard" then .ok s.jaccard
  else if key = "kendallstau" then .ok s.kendallstau
  else if key = "spearman" then .ok s.spearman
  else if key = "jensenshannon" then .ok s.jensenshannon
  else if key = "wasserstein" then .ok s.wasserstein
  else .error "KeyError"

/-- Python list indexing with a nonnegative index, raising `IndexError`. -/
def pyIdxQ (l : List ℚ) (i : ℕ) : Except String ℚ :=
  match l[i]? with
  | some x => .ok x
  | none => .error "IndexError"

/-- IEEE-style arithmetic on possibly-NaN values: NaN times a number. -/
def pyMul (a : Option ℚ) (w : ℚ) : Option ℚ := a.map (fun x => x * w)

/-- IEEE-style addition: NaN absorbs. -/
def pyAdd : Option ℚ → Option ℚ → Option ℚ
  | some x, some y => some (x + y)
  | _, _ => none

/-- IEEE-style division by a scalar (division by zero also yields no number). -/
def pyDiv (a : Option ℚ) (d : ℚ) : Option ℚ :=
  if d = 0 then none else a.map (fun x => x / d)

/-- Float `≥` with NaN semantics: any comparison involving NaN is false. -/
def pyGe : Option ℚ → Option ℚ → Bool
  | some x, some y => decide (y ≤ x)
  | _, _ => false

/-- The sort key of `rank_models`:
`(s["jaccard"]*weights[0] + s[self.rank_metric]*weights[1] + s[self.distribution_metric]*weights[2])/np.sum(weights)`,
evaluated in Python evaluation order; reading the never-assigned
`rank_metric` / `distribution_metric` attributes raises. -/
def reportKey (self : RobustTopics) (weights : List ℚ) (s : Report) :
    Except String (Option ℚ) := do
  let j ← reportItem s "jaccard"
  let w0 ← pyIdxQ weights 0
  let rm ← match self.rank_metric with
    | some m => Except.ok m
    | none => Except.error "AttributeError: rank_metric"
  let v1 ← reportItem s rm
  let w1 ← pyIdxQ weights 1
  let dm ← match self.distribution_metric with
    | some m => Except.ok m
    | none => Except.error "AttributeError: distribution_metric"
  let v2 ← reportItem s dm
  let w2 ← pyIdxQ weights 2
  pure (pyDiv (pyAdd (pyAdd (pyMul j w0) (pyMul v1 w1)) (pyMul v2 w2)) weights.sum)

/-- Stable insertion used to model Python's stable `sorted`. -/
def insertBy {α : Type} (le : α → α → Bool) (x : α) : List α → List α
  | [] => [x]
  | y :: ys => if le x y then x :: y :: ys else y :: insertBy le x ys

/-- Stable sort keeping earlier elements first among `le`-ties. -/
def sortBy {α : Type} (le : α → α → Bool) (l : List α) : List α :=
  l.foldr (insertBy le) []

/-- The `all_reports` accumulation of `rank_models`. -/
def allReports (self : RobustTopics) : List Report :=
  (self.models.map (fun e => e.2.report)).flatten

/-- The `sorted(...)` key computation: Python calls the key lambda once per
element, so the first element surfaces any raised error. -/
def keyLoop (self : RobustTopics) (weights : List ℚ) :
    List Report → Except String (List (Option ℚ × Report))
  | [] => .ok []
  | s :: rest => do
    let k ← reportKey self weights s
    let r ← keyLoop self weights rest
    pure ((k, s) :: r)

/-- `rank_models(weights, ranking)`: note that the `ranking` argument is
accepted but never read by the body. -/
def rank_models (self : RobustTopics) (weights : List ℚ)
    (_ranking : List (String × ℚ)) : Except String (List Report) := do
  let keyed ← keyLoop self weights (allReports self)
  pure ((sortBy (fun a b => pyGe a.1 b.1) keyed).map (fun p => p.2))

/-- The inner `for terms in self.models[model]["topic_terms"][sample_id]`
loop of `analyse_sample`: intersect with `set(list(terms[topic]))`. -/
def interLoop (topic : ℕ) : List (List (List ℕ)) → Finset ℕ → Except String (Finset ℕ)
  | [], acc => .ok acc
  | terms :: rest, acc =>
    match terms[topic]? with
    | some row => interLoop topic rest (acc ∩ row.toFinset)
    | none => .error "IndexError"

/-- The `for topic in range(...)` loop of `analyse_sample`.  The starting
set is `set(self.models[model]["topic_terms"][sample_id][topic][0])` — the
first index selects the RUN at position `topic`, the second its topic 0. -/
def topicsLoop (settings : ModelSettings) (sample_id : ℕ) :
    List ℕ → Except String (List (Finset ℕ))
  | [] => .ok []
  | topic :: rest => do
    let tts ← match settings.topic_terms[sample_id]? with
      | some t => Except.ok t
      | none => Except.error "IndexError"
    let initRun ← match tts[topic]? with
      | some r => Except.ok r
      | none => Except.error "IndexError"
    let initTerms ← match initRun[0]? with
      | some t => Except.ok t
      | none => Except.error "IndexError"
    let inter ← interLoop topic tts initTerms.toFinset
    let r ← topicsLoop settings sample_id rest
    pure (inter :: r)

/-- `analyse_sample(model, sample_id, feature_names)`: prints, per topic, the
intersection it computes; the printing side effect is modelled by returning
the per-topic intersected index sets. -/
def analyse_sample (self : RobustTopics) (model : String) (sample_id : ℕ) :
    Except String (List (Finset ℕ)) := do
  let settings ← match self.models.lookup model with
    | some s => Except.ok s
    | none => Except.error "KeyError"
  let sample ← match settings.samples[sample_id]? with
    | some s => Except.ok s
    | none => Except.error "IndexError"
  let first ← match sample[0]? with
    | some f => Except.ok f
    | none => Except.error "IndexError"
  topicsLoop settings sample_id (List.range first.components_.length)

/-! ## C8: rank vectors -/

/-- C8: for every top-term list and every vocabulary, the rank vector has
length exactly the vocabulary size, and each entry is the element's 0-based
position in the top-term list when present, and exactly the vocabulary size
(the absence sentinel) when absent. -/
theorem terms_to_ranking_spec (terms vocab : List ℕ) :
    (terms_to_ranking terms vocab).length = vocab.length ∧
    ∀ i, i < vocab.length →
      (terms_to_ranking terms vocab).getD i 0 =
        (if vocab.getD i 0 ∈ terms then terms.indexOf (vocab.getD i 0)
         else vocab.length) := by
  constructor
  · simp [terms_to_ranking]
  · intro i hi
    have hi2 : i < (terms_to_ranking terms vocab).length := by
      simpa [terms_to_ranking] using hi
    have h1 : (terms_to_ranking terms vocab).getD i 0 =
        (terms_to_ranking terms vocab)[i] := List.getD_eq_getElem _ _ _
    have h2 : vocab.getD i 0 = vocab[i] := List.getD_eq_getElem _ _ _
    rw [h1, h2]
    simp [terms_to_ranking]

/-- Witness for C8 at a concrete input. -/
theorem terms_to_ranking_spec_witness :
    (terms_to_ranking [5, 3] [3, 9, 5]).getD 1 0 =
      (if [3, 9, 5].getD 1 0 ∈ [5, 3] then [5, 3].indexOf ([3, 9, 5].getD 1 0)
       else [3, 9, 5].length) :=
  (terms_to_ranking_spec [5, 3] [3, 9, 5]).2 1 (by decide)

/-! ## C9: Jaccard similarity -/

/-- C9: for every pair of non-empty term lists, the Jaccard similarity is
symmetric and lies in [0,1]; for equal term sets (`[3,7,1]` twice) it is
exactly 1, and for disjoint term sets (`[1,2,3]` vs `[4,5,6]`) exactly 0. -/
theorem jaccard_similarity_props (a b : List ℕ) (ha : a ≠ []) (hb : b ≠ []) :
    jaccard_similarity a b = jaccard_similarity b a ∧
    0 ≤ jaccard_similarity a b ∧ jaccard_similarity a b ≤ 1 ∧
    jaccard_similarity [3, 7, 1] [3, 7, 1] = 1 ∧
    jaccard_similarity [1, 2, 3] [4, 5, 6] = 0 := by
  have hne : a.toFinset.Nonempty := by
    cases a with
    | nil => exact absurd rfl ha
    | cons x xs => exact ⟨x, by simp⟩
  have hpos : (0 : ℚ) < ((a.toFinset ∪ b.toFinset).card : ℚ) := by
    have : 0 < (a.toFinset ∪ b.toFinset).card :=
      Finset.card_pos.mpr (hne.mono Finset.subset_union_left)
    exact_mod_cast this
  have hle : ((a.toFinset ∩ b.toFinset).card : ℚ) ≤
      ((a.toFinset ∪ b.toFinset).card : ℚ) := by
    have : (a.toFinset ∩ b.toFinset).card ≤ (a.toFinset ∪ b.toFinset).card :=
      Finset.card_le_card (Finset.inter_subset_union)
    exact_mod_cast this
  refine ⟨?_, ?_, ?_, ?_, ?_⟩
  · unfold jaccard_similarity
    rw [Finset.inter_comm, Finset.union_comm]
  · exact div_nonneg (by positivity) (le_of_lt hpos)
  · exact (div_le_one hpos).mpr hle
  · have h1 : (([3, 7, 1] : List ℕ).toFinset ∩ ([3, 7, 1] : List ℕ).toFinset).card = 3 := by
      decide
    have h2 : (([3, 7, 1] : List ℕ).toFinset ∪ ([3, 7, 1] : List ℕ).toFinset).card = 3 := by
      decide
    rw [jaccard_similarity, h1, h2]
    norm_num
  · have h1 : (([1, 2, 3] : List ℕ).toFinset ∩ ([4, 5, 6] : List ℕ).toFinset).card = 0 := by
      decide
    have h2 : (([1, 2, 3] : List ℕ).toFinset ∪ ([4, 5, 6] : List ℕ).toFinset).card = 6 := by
      decide
    rw [jaccard_similarity, h1, h2]
    norm_num

/-- Witness for C9 at a concrete input. -/
theorem jaccard_similarity_props_witness :
    jaccard_similarity [1] [2] = jaccard_similarity [2] [1] ∧
    0 ≤ jaccard_similarity [1] [2] ∧ jaccard_similarity [1] [2] ≤ 1 ∧
    jaccard_similarity [3, 7, 1] [3, 7, 1] = 1 ∧
    jaccard_similarity [1, 2, 3] [4, 5, 6] = 0 :=
  jaccard_similarity_props [1] [2] (by simp) (by simp)

/-! ## C5: unknown parameter mode -/

/-- C5 counterexample: a parameter space whose single parameter has the
unknown mode `"weird"` does NOT make sampling fail; a full configuration
list is produced in which the parameter is silently `None`. -/
theorem unknown_mode_cex :
    compute_param_combinations
      [("p", ⟨PyType.tint, "weird", PyVal.vlist [PyVal.vint 1, PyVal.vint 2]⟩)]
      [[1/2]] = .ok [[("p", PyVal.vnone)]] := rfl

/-- C5 amended: for a parameter whose mode is none of fixed/range/list,
sampling does not fail: the parameter is classified as varying and every
produced configuration silently assigns it `None` (Python's implicit
return value of `_param_to_value`). -/
theorem unknown_mode_yields_none (name : String) (spec : ParamSpec)
    (points : List (List ℚ)) (h1 : spec.mode ≠ "fixed") (h2 : spec.mode ≠ "range")
    (h3 : spec.mode ≠ "list") (h4 : ∀ v ∈ points, v ≠ []) :
    compute_param_combinations [(name, spec)] points =
      .ok (points.map (fun _ => [(name, PyVal.vnone)])) := by
  unfold compute_param_combinations
  have hch : [(name, spec)].filter (fun p => p.2.mode ≠ "fixed") = [(name, spec)] := by
    simp [List.filter_cons, h1]
  have hfx : ([(name, spec)].filter (fun p => p.2.mode = "fixed") :
      List (String × ParamSpec)) = [] := by
    simp [List.filter_cons, h1]
  rw [hch, hfx]
  induction points with
  | nil => rfl
  | cons v rest ih =>
    have hv : v ≠ [] := h4 v (by simp)
    obtain ⟨x, xs, rfl⟩ := List.exists_cons_of_ne_nil hv
    have hrest := ih (fun w hw => h4 w (by simp [hw]))
    simp only [combLoop, sampleOfVec, buildVarying, param_to_value, if_neg h2,
      if_neg h3, List.map_nil, List.map_cons]
    rw [hrest]
    rfl

/-- Witness for the C5 amended theorem at a concrete input. -/
theorem unknown_mode_yields_none_witness :
    compute_param_combinations [("q", ⟨PyType.tstr, "mystery", PyVal.vnone⟩)]
      [[1/3]] = .ok [[("q", PyVal.vnone)]] :=
  unknown_mode_yields_none "q" ⟨PyType.tstr, "mystery", PyVal.vnone⟩ [[1/3]]
    (by decide) (by decide) (by decide)
    (by intro v hv; simp only [List.mem_singleton] at hv; simp [hv])

/-! ## C7: sampled configurations -/

/-- A well-shaped parameter specification: the mode is one of fixed, range
(with at least two numeric bounds, in order) or list (nonempty). -/
def ValidSpec (p : ParamSpec) : Prop :=
  p.mode = "fixed" ∨
  (p.mode = "range" ∧ ∃ a b rest q₁ q₂, p.values = .vlist (a :: b :: rest) ∧
    pyNum a = some q₁ ∧ pyNum b = some q₂ ∧ q₁ ≤ q₂) ∨
  (p.mode = "list" ∧ ∃ l, p.values = .vlist l ∧ l ≠ [])

/-- What `_range_to_value` guarantees for a sampled value: an integer-typed
parameter receives the truncation of a point of [min,max] (hence a value in
[trunc(min), trunc(max)]), any other type receives the point itself. -/
def RangeOK (sp : ParamSpec) (v : PyVal) : Prop :=
  ∃ a b rest q₁ q₂, sp.values = .vlist (a :: b :: rest) ∧ pyNum a = some q₁ ∧
    pyNum b = some q₂ ∧
    ((sp.type = .tint ∧ ∃ z : ℤ, v = .vint z ∧ pyTrunc q₁ ≤ z ∧ z ≤ pyTrunc q₂) ∨
     (sp.type ≠ .tint ∧ ∃ q : ℚ, v = .vrat q ∧ q₁ ≤ q ∧ q ≤ q₂))

/-- What `_list_to_value` guarantees: the sampled value is drawn from the
declared list. -/
def ListOK (sp : ParamSpec) (v : PyVal) : Prop :=
  ∃ l, sp.values = .vlist l ∧ v ∈ l

/-- Truncation toward zero is monotone. -/
theorem pyTrunc_mono {a b : ℚ} (h : a ≤ b) : pyTrunc a ≤ pyTrunc b := by
  unfold pyTrunc
  by_cases ha : 0 ≤ a
  · rw [if_pos ha, if_pos (le_trans ha h)]
    exact Int.floor_le_floor h
  · rw [if_neg ha]
    by_cases hb : 0 ≤ b
    · rw [if_pos hb]
      have h1 : ⌈a⌉ ≤ 0 := Int.ceil_le.mpr (by exact_mod_cast le_of_lt (lt_of_not_ge ha))
      have h2 : (0 : ℤ) ≤ ⌊b⌋ := Int.le_floor.mpr (by exact_mod_cast hb)
      omega
    · rw [if_neg hb]
      exact Int.ceil_le_ceil h

/-- A valid range parameter always samples successfully, to a value within
the (possibly truncated) declared bounds. -/
theorem param_to_value_range (sp : ParamSpec) (s : ℚ) (hs0 : 0 ≤ s) (hs1 : s ≤ 1)
    (hm : sp.mode = "range") (a b : PyVal) (rest : List PyVal) (q₁ q₂ : ℚ)
    (hv : sp.values = .vlist (a :: b :: rest)) (hq1 : pyNum a = some q₁)
    (hq2 : pyNum b = some q₂) (hle : q₁ ≤ q₂) :
    ∃ v, param_to_value sp s = .ok v ∧ RangeOK sp v := by
  have hlo : q₁ ≤ q₁ + (q₂ - q₁) * s := by nlinarith
  have hhi : q₁ + (q₂ - q₁) * s ≤ q₂ := by nlinarith
  unfold param_to_value
  rw [hm, if_pos rfl, hv]
  unfold range_to_value
  simp only [List.getElem?_cons_zero, List.getElem?_cons_succ, Option.some_bind,
    hq1, hq2]
  by_cases ht : sp.type = PyType.tint
  · refine ⟨.vint (pyTrunc (q₁ + (q₂ - q₁) * s)), by rw [if_pos ht], ?_⟩
    exact ⟨a, b, rest, q₁, q₂, hv, hq1, hq2,
      Or.inl ⟨ht, pyTrunc (q₁ + (q₂ - q₁) * s), rfl, pyTrunc_mono hlo, pyTrunc_mono hhi⟩⟩
  · refine ⟨.vrat (q₁ + (q₂ - q₁) * s), by rw [if_neg ht], ?_⟩
    exact ⟨a, b, rest, q₁, q₂, hv, hq1, hq2,
      Or.inr ⟨ht, q₁ + (q₂ - q₁) * s, rfl, hlo, hhi⟩⟩

/-- `pyGetI` with a valid nonnegative index returns the list element. -/
theorem pyGetI_nonneg (l : List PyVal) (i : ℤ) (h0 : 0 ≤ i)
    (hlt : i.toNat < l.length) : pyGetI l i = .ok (l.get ⟨i.toNat, hlt⟩) := by
  have hneg : ¬ i < 0 := not_lt.mpr h0
  simp only [pyGetI, hneg, if_false]
  exact dif_pos ⟨h0, hlt⟩

/-- A valid list parameter always samples successfully, to an element of the
declared list. -/
theorem param_to_value_list (sp : ParamSpec) (s : ℚ) (hs0 : 0 ≤ s) (hs1 : s ≤ 1)
    (hm : sp.mode = "list") (l : List PyVal) (hv : sp.values = .vlist l)
    (hl : l ≠ []) :
    ∃ v, param_to_value sp s = .ok v ∧ ListOK sp v := by
  have hlen : 1 ≤ l.length := List.length_pos.mpr hl
  have h0 : 0 ≤ min ⌊s * (l.length : ℚ)⌋ ((l.length : ℤ) - 1) := by
    apply le_min
    · exact Int.le_floor.mpr (by positivity)
    · omega
  have hlt : (min ⌊s * (l.length : ℚ)⌋ ((l.length : ℤ) - 1)).toNat < l.length := by
    have h := min_le_right ⌊s * (l.length : ℚ)⌋ ((l.length : ℤ) - 1)
    omega
  refine ⟨l.get ⟨(min ⌊s * (l.length : ℚ)⌋ ((l.length : ℤ) - 1)).toNat, hlt⟩,
    ?_, l, hv, l.get_mem _ hlt⟩
  unfold param_to_value
  rw [hm, if_neg (by decide), if_pos rfl, hv]
  unfold list_to_value
  exact pyGetI_nonneg l _ h0 hlt

/-- The inner loop of the sampler succeeds on valid varying parameters and
produces, for each of them, a value with the mode-appropriate guarantee. -/
theorem buildVarying_ok (changing : List (String × ParamSpec)) (vec : List ℚ)
    (hval : ∀ p ∈ changing, ValidSpec p.2 ∧ p.2.mode ≠ "fixed")
    (hlen : changing.length ≤ vec.length)
    (hunit : ∀ x ∈ vec, 0 ≤ x ∧ x ≤ 1) :
    ∃ cfg, buildVarying changing vec = .ok cfg ∧
      ∀ p ∈ changing, ∃ v, (p.1, v) ∈ cfg ∧
        (p.2.mode = "range" → RangeOK p.2 v) ∧
        (p.2.mode = "list" → ListOK p.2 v) := by
  induction changing generalizing vec with
  | nil => exact ⟨[], rfl, by simp⟩
  | cons p rest ih =>
    cases vec with
    | nil => simp at hlen
    | cons x xs =>
      have hx := hunit x (by simp)
      obtain ⟨hvalp, hmode⟩ := hval p (by simp)
      have hpv : ∃ v, param_to_value p.2 x = .ok v ∧
          (p.2.mode = "range" → RangeOK p.2 v) ∧
          (p.2.mode = "list" → ListOK p.2 v) := by
        rcases hvalp with hf | ⟨hm, a, b, r, q₁, q₂, hv, hq1, hq2, hq⟩ | ⟨hm, l, hv, hl⟩
        · exact absurd hf hmode
        · obtain ⟨v, hok, hr⟩ :=
            param_to_value_range p.2 x hx.1 hx.2 hm a b r q₁ q₂ hv hq1 hq2 hq
          refine ⟨v, hok, fun _ => hr, fun hlist => ?_⟩
          rw [hm] at hlist
          exact absurd hlist (by decide)
        · obtain ⟨v, hok, hr⟩ := param_to_value_list p.2 x hx.1 hx.2 hm l hv hl
          refine ⟨v, hok, fun hrange => ?_, fun _ => hr⟩
          rw [hm] at hrange
          exact absurd hrange (by decide)
      obtain ⟨v, hok, hprops⟩ := hpv
      obtain ⟨cfg, hcfg, hmem⟩ := ih xs (fun q hq => hval q (by simp [hq]))
        (by simpa using Nat.le_of_succ_le_succ hlen)
        (fun y hy => hunit y (by simp [hy]))
      refine ⟨(p.1, v) :: cfg, ?_, ?_⟩
      · simp only [buildVarying, hok, hcfg]
        rfl
      · intro q hq
        rcases List.mem_cons.mp hq with rfl | hq2
        · exact ⟨v, by simp, hprops⟩
        · obtain ⟨w, hw, hwp⟩ := hmem q hq2
          exact ⟨w, by simp [hw], hwp⟩

/-- The outer sampling loop: if every point yields a configuration with
property `Q`, the loop yields the full list of them. -/
theorem combLoop_ok (changing fixed : List (String × ParamSpec))
    (Q : Config → Prop) (points : List (List ℚ))
    (h : ∀ vec ∈ points, ∃ cfg, sampleOfVec changing fixed vec = .ok cfg ∧ Q cfg) :
    ∃ cfgs, combLoop changing fixed points = .ok cfgs ∧
      cfgs.length = points.length ∧ ∀ cfg ∈ cfgs, Q cfg := by
  induction points with
  | nil => exact ⟨[], rfl, rfl, by simp⟩
  | cons vec rest ih =>
    obtain ⟨cfg, hcfg, hq⟩ := h vec (by simp)
    obtain ⟨cfgs, hcfgs, hlen, hall⟩ := ih (fun w hw => h w (by simp [hw]))
    refine ⟨cfg :: cfgs, ?_, by simp [hlen], ?_⟩
    · simp only [combLoop, hcfg, hcfgs]
      rfl
    · intro c hc
      rcases List.mem_cons.mp hc with rfl | hc2
      · exact hq
      · exact hall c hc2

/-- C7 amended: for every well-shaped ParameterSpace and every batch of `n`
unit-hypercube sobol points of sufficient dimension, sampling succeeds and
returns exactly `n` configurations; every fixed parameter carries its
declared value identically in each configuration, every list parameter an
element of its declared list, and every range parameter a value of
`[min, max]` — truncated toward zero for integer-typed parameters, so the
stored integer lies in `[trunc(min), trunc(max)]` (which is `[min, max]`
itself whenever the declared bounds are integers, but can fall outside
`[min, max]` for fractional bounds). -/
theorem sample_properties (params : List (String × ParamSpec))
    (points : List (List ℚ)) (n : ℕ)
    (hval : ∀ p ∈ params, ValidSpec p.2)
    (hn : points.length = n)
    (hdim : ∀ vec ∈ points, params.length ≤ vec.length)
    (hunit : ∀ vec ∈ points, ∀ x ∈ vec, 0 ≤ x ∧ x ≤ 1) :
    ∃ cfgs, compute_param_combinations params points = .ok cfgs ∧
      cfgs.length = n ∧
      ∀ cfg ∈ cfgs, ∀ p ∈ params,
        (p.2.mode = "fixed" → (p.1, p.2.values) ∈ cfg) ∧
        (p.2.mode = "range" → ∃ v, (p.1, v) ∈ cfg ∧ RangeOK p.2 v) ∧
        (p.2.mode = "list" → ∃ v, (p.1, v) ∈ cfg ∧ ListOK p.2 v) := by
  subst hn
  unfold compute_param_combinations
  have hmain := combLoop_ok (params.filter (fun p => p.2.mode ≠ "fixed"))
    (params.filter (fun p => p.2.mode = "fixed"))
    (fun cfg => ∀ p ∈ params,
      (p.2.mode = "fixed" → (p.1, p.2.values) ∈ cfg) ∧
      (p.2.mode = "range" → ∃ v, (p.1, v) ∈ cfg ∧ RangeOK p.2 v) ∧
      (p.2.mode = "list" → ∃ v, (p.1, v) ∈ cfg ∧ ListOK p.2 v))
    points ?_
  · obtain ⟨cfgs, hcfgs, hlen, hall⟩ := hmain
    exact ⟨cfgs, hcfgs, hlen, hall⟩
  · intro vec hvec
    have hch : ∀ p ∈ params.filter (fun p => p.2.mode ≠ "fixed"),
        ValidSpec p.2 ∧ p.2.mode ≠ "fixed" := by
      intro p hp
      have h1 := List.of_mem_filter hp
      have h2 := List.mem_of_mem_filter hp
      exact ⟨hval p h2, by simpa using h1⟩
    have hchlen : (params.filter (fun p => p.2.mode ≠ "fixed")).length ≤ vec.length :=
      le_trans (List.length_filter_le _ _) (hdim vec hvec)
    obtain ⟨varied, hvaried, hvmem⟩ := buildVarying_ok _ vec hch hchlen (hunit vec hvec)
    refine ⟨varied ++ (params.filter (fun p => p.2.mode = "fixed")).map
      (fun p => (p.1, p.2.values)), ?_, ?_⟩
    · simp only [sampleOfVec, hvaried]
      rfl
    · intro p hp
      refine ⟨?_, ?_, ?_⟩
      · intro hf
        apply List.mem_append_right
        exact List.mem_map.mpr ⟨p, List.mem_filter.mpr ⟨hp, by simp [hf]⟩, rfl⟩
      · intro hr
        have hpmem : p ∈ params.filter (fun p => p.2.mode ≠ "fixed") :=
          List.mem_filter.mpr ⟨hp, by simp [hr]⟩
        obtain ⟨v, hv, hprops⟩ := hvmem p hpmem
        exact ⟨v, List.mem_append_left _ hv, hprops.1 hr⟩
      · intro hr
        have hpmem : p ∈ params.filter (fun p => p.2.mode ≠ "fixed") :=
          List.mem_filter.mpr ⟨hp, by simp [hr]⟩
        obtain ⟨v, hv, hprops⟩ := hvmem p hpmem
        exact ⟨v, List.mem_append_left _ hv, hprops.2 hr⟩

/-- C7 counterexample: an integer-typed range parameter with the valid
bounds `[1.5, 2.5]` sampled at the first three 1-dimensional sobol points
`0.5, 0.75, 0.25` yields the values `2, 2, 1` — and `1` lies strictly
below the declared minimum `1.5`, so sampled values do not always lie
within `[min, max]`. -/
theorem int_range_outside_bounds_cex :
    compute_param_combinations
      [("p", ⟨PyType.tint, "range", PyVal.vlist [PyVal.vrat (3/2), PyVal.vrat (5/2)]⟩)]
      [[1/2], [3/4], [1/4]] =
      .ok [[("p", PyVal.vint 2)], [("p", PyVal.vint 2)], [("p", PyVal.vint 1)]] ∧
    ¬ ((3 : ℚ)/2 ≤ ((1 : ℤ) : ℚ)) := by
  constructor
  · norm_num [compute_param_combinations, combLoop, sampleOfVec, buildVarying,
      param_to_value, range_to_value, pyNum, pyTrunc, List.filter]
    rfl
  · norm_num

/-- Witness for the C7 amended theorem at a concrete valid space. -/
theorem sample_properties_witness :
    ∃ cfgs, compute_param_combinations
        [("n_components", ⟨PyType.tint, "range",
            PyVal.vlist [PyVal.vint 5, PyVal.vint 50]⟩),
         ("init", ⟨PyType.tstr, "fixed", PyVal.vstr "random"⟩)]
        [[1/2, 1/2]] = .ok cfgs ∧
      cfgs.length = 1 ∧
      ∀ cfg ∈ cfgs, ∀ p ∈
        [("n_components", (⟨PyType.tint, "range",
            PyVal.vlist [PyVal.vint 5, PyVal.vint 50]⟩ : ParamSpec)),
         ("init", ⟨PyType.tstr, "fixed", PyVal.vstr "random"⟩)],
        (p.2.mode = "fixed" → (p.1, p.2.values) ∈ cfg) ∧
        (p.2.mode = "range" → ∃ v, (p.1, v) ∈ cfg ∧ RangeOK p.2 v) ∧
        (p.2.mode = "list" → ∃ v, (p.1, v) ∈ cfg ∧ ListOK p.2 v) := by
  apply sample_properties
    [("n_components", ⟨PyType.tint, "range", PyVal.vlist [PyVal.vint 5, PyVal.vint 50]⟩),
     ("init", ⟨PyType.tstr, "fixed", PyVal.vstr "random"⟩)]
    [[1/2, 1/2]] 1 ?_ rfl ?_ ?_
  · intro p hp
    rcases List.mem_cons.mp hp with rfl | hp2
    · exact Or.inr (Or.inl ⟨rfl, PyVal.vint 5, PyVal.vint 50, [],
        ((5 : ℤ) : ℚ), ((50 : ℤ) : ℚ), rfl, rfl, rfl, by norm_num⟩)
    · rcases List.mem_cons.mp hp2 with rfl | hp3
      · exact Or.inl rfl
      · cases hp3
  · intro vec hvec
    rcases List.mem_cons.mp hvec with rfl | h
    · simp
    · cases h
  · intro vec hvec x hx
    rcases List.mem_cons.mp hvec with rfl | h
    · rcases List.mem_cons.mp hx with rfl | hx2
      · norm_num
      · rcases List.mem_cons.mp hx2 with rfl | hx3
        · norm_num
        · cases hx3
    · cases h

/-! ## C3: the vocabulary of the ranking vectors -/

/-- Membership in a Python-set update. -/
theorem mem_vocabUpdate (xs : List ℕ) (v : List ℕ) (x : ℕ) :
    x ∈ vocabUpdate v xs ↔ x ∈ v ∨ x ∈ xs := by
  induction xs generalizing v with
  | nil => simp [vocabUpdate]
  | cons y ys ih =>
    rw [show vocabUpdate v (y :: ys) =
      vocabUpdate (if y ∈ v then v else v ++ [y]) ys from rfl, ih]
    by_cases hy : y ∈ v
    · rw [if_pos hy]
      simp only [List.mem_cons]
      constructor
      · rintro (h | h)
        · exact Or.inl h
        · exact Or.inr (Or.inr h)
      · rintro (h | rfl | h)
        · exact Or.inl h
        · exact Or.inl hy
        · exact Or.inr h
    · rw [if_neg hy]
      simp only [List.mem_append, List.mem_cons, List.not_mem_nil, or_false]
      constructor
      · rintro ((h | rfl) | h)
        · exact Or.inl h
        · exact Or.inr (Or.inl rfl)
        · exact Or.inr (Or.inr h)
      · rintro (h | rfl | h)
        · exact Or.inl (Or.inl h)
        · exact Or.inl (Or.inr rfl)
        · exact Or.inr h

/-- Membership after folding the updates of one configuration's runs. -/
theorem mem_vocab_inner (terms : List (List (List ℕ))) (v : List ℕ) (x : ℕ) :
    x ∈ terms.foldl (fun v tt => vocabUpdate v tt.flatten) v ↔
      x ∈ v ∨ ∃ tt ∈ terms, x ∈ tt.flatten := by
  induction terms generalizing v with
  | nil => simp
  | cons t ts ih =>
    rw [List.foldl_cons, ih, mem_vocabUpdate]
    simp only [List.mem_cons]
    constructor
    · rintro ((h | h) | ⟨tt, htt, hx⟩)
      · exact Or.inl h
      · exact Or.inr ⟨t, Or.inl rfl, h⟩
      · exact Or.inr ⟨tt, Or.inr htt, hx⟩
    · rintro (h | ⟨tt, (rfl | htt), hx⟩)
      · exact Or.inl (Or.inl h)
      · exact Or.inl (Or.inr hx)
      · exact Or.inr ⟨tt, htt, hx⟩

/-- Membership in the family-wide vocabulary built by
`_create_ranking_vectors`. -/
theorem mem_vocabOfTerms (sts : List (List (List (List ℕ)))) (x : ℕ) :
    x ∈ vocabOfTerms sts ↔ ∃ terms ∈ sts, ∃ tt ∈ terms, x ∈ tt.flatten := by
  have gen : ∀ v : List ℕ,
      x ∈ sts.foldl (fun v terms => terms.foldl (fun v tt => vocabUpdate v tt.flatten) v) v ↔
        x ∈ v ∨ ∃ terms ∈ sts, ∃ tt ∈ terms, x ∈ tt.flatten := by
    induction sts with
    | nil => simp
    | cons t ts ih =>
      intro v
      rw [List.foldl_cons, ih, mem_vocab_inner]
      simp only [List.mem_cons]
      constructor
      · rintro ((h | h) | ⟨terms, hts, htt⟩)
        · exact Or.inl h
        · exact Or.inr ⟨t, Or.inl rfl, h⟩
        · exact Or.inr ⟨terms, Or.inr hts, htt⟩
      · rintro (h | ⟨terms, (rfl | hts), htt⟩)
        · exact Or.inl (Or.inl h)
        · exact Or.inl (Or.inr htt)
        · exact Or.inr ⟨terms, hts, htt⟩
  rw [vocabOfTerms, gen []]
  simp

/-- Rank vectors always have the length of the vocabulary they are built over. -/
theorem terms_to_ranking_length (terms vocab : List ℕ) :
    (terms_to_ranking terms vocab).length = vocab.length := by
  simp [terms_to_ranking]

/-- C3 amended: `_create_ranking_vectors` builds ONE vocabulary per model
family, not one per configuration: it is exactly the union of the feature
indices appearing in some topic's top-k list of some artifact of ANY of
the family's run-groups, and every configuration's rank vectors are built
over (and have the length of) this single shared vocabulary. -/
theorem vocab_per_family (n_relevant : ℕ) (samples : List (List ModelArtifact)) :
    (∀ x, x ∈ vocabOfTerms (sampleTermsOf n_relevant samples) ↔
      ∃ sample ∈ samples, ∃ m ∈ sample, ∃ tl ∈ get_top_terms m n_relevant, x ∈ tl) ∧
    ∀ rv ∈ create_ranking_vectors n_relevant samples, ∀ runv ∈ rv, ∀ vvec ∈ runv,
      vvec.length = (vocabOfTerms (sampleTermsOf n_relevant samples)).length := by
  constructor
  · intro x
    rw [mem_vocabOfTerms]
    constructor
    · rintro ⟨terms, hterms, tt, htt, hx⟩
      obtain ⟨sample, hsample, rfl⟩ := List.mem_map.mp hterms
      obtain ⟨m, hm, rfl⟩ := List.mem_map.mp htt
      obtain ⟨tl, htl, hxl⟩ := List.mem_flatten.mp hx
      exact ⟨sample, hsample, m, hm, tl, htl, hxl⟩
    · rintro ⟨sample, hsample, m, hm, tl, htl, hxl⟩
      exact ⟨sample.map (fun m => get_top_terms m n_relevant),
        List.mem_map.mpr ⟨sample, hsample, rfl⟩,
        get_top_terms m n_relevant, List.mem_map.mpr ⟨m, hm, rfl⟩,
        List.mem_flatten.mpr ⟨tl, htl, hxl⟩⟩
  · intro rv hrv runv hrunv vvec hvvec
    simp only [create_ranking_vectors] at hrv
    obtain ⟨terms, _, rfl⟩ := List.mem_map.mp hrv
    obtain ⟨mt, _, rfl⟩ := List.mem_map.mp hrunv
    obtain ⟨t, _, rfl⟩ := List.mem_map.mp hvvec
    exact terms_to_ranking_length _ _

/-- First run-group of the C3 counterexample: one run, one topic, top
terms `{0, 1}`. -/
def mA3 : ModelArtifact := ⟨[[5, 7, 0, 0]]⟩

/-- Second run-group of the C3 counterexample: one run, one topic, top
terms `{2, 3}`. -/
def mB3 : ModelArtifact := ⟨[[0, 0, 5, 7]]⟩

/-- The two sampled configurations of the C3 counterexample family. -/
def samplesC3 : List (List ModelArtifact) := [[mA3], [mB3]]

/-- C3 counterexample: with two configurations whose top terms are `{0,1}`
and `{2,3}`, the vocabulary actually used for configuration 0's rank
vectors is the shared `[1,0,3,2]` — it contains indices 3 and 2 that occur
only in configuration 1's run-group, and configuration 0's rank vector has
length 4, not the size 2 of configuration 0's own index union. -/
theorem vocab_shared_across_configs_cex :
    sampleTermsOf 2 samplesC3 = [[[[1, 0]]], [[[3, 2]]]] ∧
    vocabOfTerms (sampleTermsOf 2 samplesC3) = [1, 0, 3, 2] ∧
    create_ranking_vectors 2 samplesC3 = [[[[0, 1, 4, 4]]], [[[4, 4, 0, 1]]]] := by
  have hA : get_top_terms mA3 2 = [[1, 0]] := by
    norm_num [get_top_terms, mA3, argsort, sortAsc, insertAsc, List.range_succ,
      List.getD]
  have hB : get_top_terms mB3 2 = [[3, 2]] := by
    norm_num [get_top_terms, mB3, argsort, sortAsc, insertAsc, List.range_succ,
      List.getD]
  have hst : sampleTermsOf 2 samplesC3 = [[[[1, 0]]], [[[3, 2]]]] := by
    simp [sampleTermsOf, samplesC3, hA, hB]
  refine ⟨hst, ?_, ?_⟩
  · rw [hst]
    decide
  · simp only [create_ranking_vectors, hst]
    decide

/-- Witness for the C3 amended theorem: index 2 (contributed only by the
second configuration) is in the shared vocabulary. -/
theorem vocab_per_family_witness :
    2 ∈ vocabOfTerms (sampleTermsOf 2 samplesC3) :=
  ((vocab_per_family 2 samplesC3).1 2).mpr
    ⟨[mB3], by simp [samplesC3], mB3, by simp, [3, 2],
      by norm_num [get_top_terms, mB3, argsort, sortAsc, insertAsc,
        List.range_succ, List.getD],
      by simp⟩

/-! ## C4: analyse_sample -/

/-- Decidable equality of `Except` results, used to evaluate the embedded
functions on concrete inputs. -/
instance {ε α : Type} [DecidableEq ε] [DecidableEq α] :
    DecidableEq (Except ε α) := fun a b =>
  match a, b with
  | .ok x, .ok y =>
    if h : x = y then isTrue (by rw [h])
    else isFalse (fun hc => h (by injection hc))
  | .error x, .error y =>
    if h : x = y then isTrue (by rw [h])
    else isFalse (fun hc => h (by injection hc))
  | .ok _, .error _ => isFalse (fun hc => Except.noConfusion hc)
  | .error _, .ok _ => isFalse (fun hc => Except.noConfusion hc)

/-- The single fitted artifact of the C4 input: two topics over five
features, with top-2 terms `[1, 2]` (topic 0) and `[4, 3]` (topic 1). -/
def artC4 : ModelArtifact := ⟨[[0, 5, 3, 1, 0], [0, 0, 0, 5, 7]]⟩

/-- The C4 model family context: one configuration whose run-group holds
two identical runs, with the matching stored `topic_terms`. -/
def settingsC4 : ModelSettings :=
  { n_samples := 1, data := [[1]], params := [], sampling := [[]],
    samples := [[artC4, artC4]],
    topic_terms := [[[[1, 2], [4, 3]], [[1, 2], [4, 3]]]],
    report := [], report_full := [] }

/-- The C4 `RobustTopics` state after fitting the family above. -/
def selfC4 : RobustTopics :=
  { n_iterations := 2, n_relevant_top_words := 2,
    models := [("sklearn_lda", settingsC4)],
    rank_metric := none, distribution_metric := none }

/-- C4 counterexample: both runs agree on every topic (topic 1's term list
is `[4, 3]` in both), so the per-topic intersection across runs for topic 1
is `{3, 4}`; but `analyse_sample` starts topic 1's intersection from
`topic_terms[sample_id][1][0]` — topic 0 of RUN 1, namely `{1, 2}` — and
therefore outputs the empty set for topic 1. -/
theorem analyse_sample_misindex_cex :
    analyse_sample selfC4 "sklearn_lda" 0 =
      .ok [({1, 2} : Finset ℕ), (∅ : Finset ℕ)] ∧
    ([4, 3] : List ℕ).toFinset ∩ ([4, 3] : List ℕ).toFinset = ({3, 4} : Finset ℕ) ∧
    (∅ : Finset ℕ) ≠ ({3, 4} : Finset ℕ) := by
  refine ⟨?_, by decide, by decide⟩
  decide

/-! ## C1: rank_models -/

/-- Monadic bind on a successful `Except` value. -/
@[simp] theorem exceptBindOk {ε α β : Type} (a : α) (f : α → Except ε β) :
    (Except.ok a >>= f) = f a := rfl

/-- Monadic bind on a failed `Except` value. -/
@[simp] theorem exceptBindError {ε α β : Type} (e : ε) (f : α → Except ε β) :
    ((Except.error e : Except ε α) >>= f) = Except.error e := rfl

/-- C1: on every `RobustTopics` state whose `rank_metric` attribute is
unset (as left by `__init__`, and no method ever assigns it) and that holds
at least one stability report, `rank_models` raises instead of returning a
sorted list, for any weights and any metric selection. -/
theorem rank_models_attribute_error (self : RobustTopics) (weights : List ℚ)
    (ranking : List (String × ℚ)) (h1 : self.rank_metric = none)
    (h2 : allReports self ≠ []) :
    ∃ msg, rank_models self weights ranking = .error msg := by
  obtain ⟨s, rest, hrep⟩ : ∃ s rest, allReports self = s :: rest := by
    cases hal : allReports self with
    | nil => exact absurd hal h2
    | cons a l => exact ⟨a, l, rfl⟩
  cases weights with
  | nil =>
    refine ⟨"IndexError", ?_⟩
    have hk : reportKey self [] s = .error "IndexError" := by
      simp [reportKey, reportItem, pyIdxQ]
    unfold rank_models
    rw [hrep]
    simp [keyLoop, hk]
  | cons w ws =>
    refine ⟨"AttributeError: rank_metric", ?_⟩
    have hk : reportKey self (w :: ws) s = .error "AttributeError: rank_metric" := by
      simp [reportKey, reportItem, pyIdxQ, h1]
    unfold rank_models
    rw [hrep]
    simp [keyLoop, hk]

/-- The single stored report of the C1 witness state. -/
def repC1 : Report :=
  { model := "sklearn_lda", sample_id := 0, n_topics := 2, params := [],
    jaccard := some 1, kendallstau := some 1, spearman := some 1,
    jensenshannon := some 1, wasserstein := some 1 }

/-- A C1 state as produced by init / load / fit: one family with one
report, `rank_metric` and `distribution_metric` never assigned. -/
def selfC1 : RobustTopics :=
  { n_iterations := 10, n_relevant_top_words := 20,
    models := [("sklearn_lda",
      { n_samples := 1, data := [[1]], params := [], sampling := [[]],
        samples := [], topic_terms := [], report := [repC1],
        report_full := [] })],
    rank_metric := none, distribution_metric := none }

/-- Witness for C1 with the default arguments of `rank_models`. -/
theorem rank_models_attribute_error_witness :
    ∃ msg, rank_models selfC1 [1, 1, 1]
      [("jensenshannon", 1), ("jaccard", 1), ("kendalltau", 1)] = .error msg :=
  rank_models_attribute_error selfC1 [1, 1, 1]
    [("jensenshannon", 1), ("jaccard", 1), ("kendalltau", 1)] rfl
    (by rw [show allReports selfC1 = [repC1] from rfl]; exact List.cons_ne_nil _ _)

/-! ## C2: fit failure propagation -/

/-- The fit loop appends the run-groups of the successfully fitted
configurations, then stops at the first failing configuration, propagating
its error and appending nothing for it. -/
theorem fitLoop_error_after (fitLda fitNmf : FitFn) (name : String) (nIter : ℕ)
    (d : List (List ℚ)) (pre : List Config) (groups : List (List ModelArtifact))
    (c : Config) (post : List Config) (e : String)
    (hpre : List.Forall₂ (fun cfg g =>
      model_iterations fitLda fitNmf name cfg d nIter = .ok g) pre groups)
    (hc : model_iterations fitLda fitNmf name c d nIter = .error e) :
    ∀ s : ModelSettings, s.data = d →
      fitLoop fitLda fitNmf name nIter (pre ++ c :: post) s =
        ({ s with samples := s.samples ++ groups }, some e) := by
  induction hpre with
  | nil =>
    intro s hd
    subst hd
    simp only [List.nil_append, fitLoop, hc]
    simp
  | @cons cfg g pre' groups' hfg _ ih =>
    intro s hd
    subst hd
    simp only [List.cons_append, fitLoop, hfg, List.append_eq]
    rw [ih { s with samples := s.samples ++ [g] } rfl]
    simp [List.append_assoc]

/-- C2 amended: if the fit capability raises on some configuration, the
exception propagates out of `fit_models`; the failing configuration's
run-group is not added, every configuration fitted before the failure keeps
its run-group in the context, later model families are untouched — and NO
configuration obtains a report entry, because the stability reports are
computed only after all fitting has finished, which the exception aborts
(the report and report_full lists stay exactly as they were). -/
theorem fit_models_fit_failure (fitLda fitNmf : FitFn) (ext : ExternalFns)
    (nIter nRel : ℕ) (name : String) (s : ModelSettings)
    (rest : List (String × ModelSettings)) (pre : List Config) (c : Config)
    (post : List Config) (groups : List (List ModelArtifact)) (e : String)
    (hs : s.sampling = pre ++ c :: post)
    (hpre : List.Forall₂ (fun cfg g =>
      model_iterations fitLda fitNmf name cfg s.data nIter = .ok g) pre groups)
    (hc : model_iterations fitLda fitNmf name c s.data nIter = .error e) :
    fit_models fitLda fitNmf ext nIter nRel ((name, s) :: rest) =
      ((name, { s with samples := s.samples ++ groups }) :: rest, some e) := by
  have hloop := fitLoop_error_after fitLda fitNmf name nIter s.data pre groups c
    post e hpre hc s rfl
  unfold fit_models fitModelsLoop
  rw [hs, hloop, hs]

/-- External metric functions for concrete runs; their values never matter
to the claims, which is exactly the black-box treatment the design gives
them. -/
def extZero : ExternalFns :=
  { kendalltau := fun _ _ => 0, spearmanr := fun _ _ => 0,
    jensenshannon := fun _ _ => 0, wasserstein_distance := fun _ _ => 0,
    sqrt := fun q => q }

/-- The artifact returned by every successful C2 fit call. -/
def artC2 : ModelArtifact := ⟨[[1, 0]]⟩

/-- First sampled configuration of the C2 run. -/
def cfgA : Config := [("n_components", PyVal.vint 2)]

/-- Second sampled configuration of the C2 run. -/
def cfgB : Config := [("n_components", PyVal.vint 3)]

/-- The C2 fit capability: raises on iteration 3 for the configuration with
`n_components = 3`, succeeds everywhere else. -/
def fitLdaC2 : FitFn := fun c _ it =>
  match c.lookup "n_components", it with
  | some (PyVal.vint 3), 3 => .error "boom"
  | _, _ => .ok artC2

/-- The C2 context before fitting: two sampled configurations, nothing
fitted yet. -/
def settingsC2 : ModelSettings :=
  { n_samples := 2, data := [[1]], params := [], sampling := [cfgA, cfgB],
    samples := [], topic_terms := [], report := [], report_full := [] }

/-- C2 counterexample: the fit capability raises on iteration 3 of 5 of the
second configuration.  The error propagates, the first configuration keeps
its complete run-group — but the report list is EMPTY, so the first,
fully processed configuration has no entry in the report set, contrary to
the claim. -/
theorem fit_models_prior_reports_missing_cex :
    fit_models fitLdaC2 fitLdaC2 extZero 5 20 [("sklearn_lda", settingsC2)] =
      ([("sklearn_lda", { settingsC2 with
          samples := [[artC2, artC2, artC2, artC2, artC2]] })], some "boom") ∧
    ({ settingsC2 with
        samples := [[artC2, artC2, artC2, artC2, artC2]] }).report = [] := by
  exact ⟨rfl, rfl⟩

/-- Witness for the C2 amended theorem: same failing fit with a second,
not-yet-processed NMF family, which stays untouched. -/
theorem fit_models_fit_failure_witness :
    fit_models fitLdaC2 fitLdaC2 extZero 5 20
      [("sklearn_lda", settingsC2), ("sklearn_nmf", settingsC2)] =
      ([("sklearn_lda", { settingsC2 with
          samples := [[artC2, artC2, artC2, artC2, artC2]] }),
        ("sklearn_nmf", settingsC2)], some "boom") :=
  fit_models_fit_failure fitLdaC2 fitLdaC2 extZero 5 20 "sklearn_lda" settingsC2
    [("sklearn_nmf", settingsC2)] [cfgA] cfgB []
    [[artC2, artC2, artC2, artC2, artC2]] "boom" rfl
    (List.Forall₂.cons rfl List.Forall₂.nil) rfl

/-! ## C10: frame conditions of fitting and stability computation -/

/-- The frame relation between a model family context before and after a
mutation step: the configuration entries (`params`, `sampling`,
`n_samples`, `data`) are untouched, and the four result lists (`samples`,
`topic_terms`, `report`, `report_full`) are only appended to. -/
def SettingsFrame (a b : ModelSettings) : Prop :=
  a.n_samples = b.n_samples ∧ a.data = b.data ∧ a.params = b.params ∧
  a.sampling = b.sampling ∧ a.samples <+: b.samples ∧
  a.topic_terms <+: b.topic_terms ∧ a.report <+: b.report ∧
  a.report_full <+: b.report_full

/-- The frame relation is reflexive. -/
theorem settingsFrame_refl (a : ModelSettings) : SettingsFrame a a :=
  ⟨rfl, rfl, rfl, rfl, List.prefix_refl _, List.prefix_refl _,
    List.prefix_refl _, List.prefix_refl _⟩

/-- The frame relation is transitive. -/
theorem settingsFrame_trans {a b c : ModelSettings} (h1 : SettingsFrame a b)
    (h2 : SettingsFrame b c) : SettingsFrame a c :=
  ⟨h1.1.trans h2.1, h1.2.1.trans h2.2.1, h1.2.2.1.trans h2.2.2.1,
    h1.2.2.2.1.trans h2.2.2.2.1, h1.2.2.2.2.1.trans h2.2.2.2.2.1,
    h1.2.2.2.2.2.1.trans h2.2.2.2.2.2.1, h1.2.2.2.2.2.2.1.trans h2.2.2.2.2.2.2.1,
    h1.2.2.2.2.2.2.2.trans h2.2.2.2.2.2.2.2⟩

/-- Appending to the `samples` list is a frame step. -/
theorem settingsFrame_samples_append (s : ModelSettings)
    (g : List ModelArtifact) :
    SettingsFrame s { s with samples := s.samples ++ [g] } :=
  ⟨rfl, rfl, rfl, rfl, List.prefix_append _ _, List.prefix_refl _,
    List.prefix_refl _, List.prefix_refl _⟩

/-- The fit loop only appends run-groups, whether or not it raises. -/
theorem fitLoop_frame (fitLda fitNmf : FitFn) (name : String) (nIter : ℕ) :
    ∀ (configs : List Config) (s : ModelSettings),
      SettingsFrame s (fitLoop fitLda fitNmf name nIter configs s).1 := by
  intro configs
  induction configs with
  | nil => intro s; exact settingsFrame_refl s
  | cons c cs ih =>
    intro s
    simp only [fitLoop]
    cases model_iterations fitLda fitNmf name c s.data nIter with
    | error e => exact settingsFrame_refl s
    | ok g =>
      exact settingsFrame_trans (settingsFrame_samples_append s g)
        (ih { s with samples := s.samples ++ [g] })

/-- The per-sample stability loop only appends to `topic_terms`, `report`
and `report_full`, whether or not it raises. -/
theorem stabLoop_frame (ext : ExternalFns) (nRel : ℕ) (name : String)
    (sampling : List Config) (rvecs : List (List (List (List ℕ)))) :
    ∀ (sid : ℕ) (samples : List (List ModelArtifact)) (s : ModelSettings),
      SettingsFrame s (stabLoop ext nRel name sampling rvecs sid samples s).1 := by
  intro sid samples
  induction samples generalizing sid with
  | nil => intro s; exact settingsFrame_refl s
  | cons g rest ih =>
    intro s
    simp only [stabLoop]
    cases sampleTermsStage nRel g with
    | error e => exact settingsFrame_refl s
    | ok v =>
      obtain ⟨nt, terms, dists⟩ := v
      dsimp only
      have h1 : SettingsFrame s { s with topic_terms := s.topic_terms ++ [terms] } :=
        ⟨rfl, rfl, rfl, rfl, List.prefix_refl _, List.prefix_append _ _,
          List.prefix_refl _, List.prefix_refl _⟩
      cases sampleReport ext name (sampling.getD sid []) sid nt terms dists
          (rvecs.getD sid []) with
      | error e => exact h1
      | ok rp =>
        obtain ⟨rep, repf⟩ := rp
        dsimp only
        refine settingsFrame_trans h1 (settingsFrame_trans ?_ (ih (sid + 1) _))
        exact ⟨rfl, rfl, rfl, rfl, List.prefix_refl _, List.prefix_refl _,
          List.prefix_append _ _, List.prefix_append _ _⟩

/-- The frame relation on named model family entries. -/
def EntryFrame (a b : String × ModelSettings) : Prop :=
  a.1 = b.1 ∧ SettingsFrame a.2 b.2

/-- `EntryFrame` composition through two passes over the registry. -/
theorem forall₂_entryFrame_trans :
    ∀ {l₁ l₂ l₃ : List (String × ModelSettings)},
      List.Forall₂ EntryFrame l₁ l₂ → List.Forall₂ EntryFrame l₂ l₃ →
      List.Forall₂ EntryFrame l₁ l₃ := by
  intro l₁ l₂ l₃ h1
  induction h1 generalizing l₃ with
  | nil =>
    intro h2
    cases h2
    exact List.Forall₂.nil
  | cons hab _ ih =>
    intro h2
    cases h2 with
    | cons hbc h2tail =>
      exact List.Forall₂.cons ⟨hab.1.trans hbc.1, settingsFrame_trans hab.2 hbc.2⟩
        (ih h2tail)

/-- Every registry is entry-wise framed by itself. -/
theorem forall₂_entryFrame_refl (l : List (String × ModelSettings)) :
    List.Forall₂ EntryFrame l l :=
  List.forall₂_same.mpr (fun p _ => ⟨rfl, settingsFrame_refl p.2⟩)

/-- The fitting pass frames every registry entry. -/
theorem fitModelsLoop_frame (fitLda fitNmf : FitFn) (nIter : ℕ) :
    ∀ models : List (String × ModelSettings),
      List.Forall₂ EntryFrame models (fitModelsLoop fitLda fitNmf nIter models).1 := by
  intro models
  induction models with
  | nil => exact List.Forall₂.nil
  | cons p rest ih =>
    obtain ⟨name, s⟩ := p
    simp only [fitModelsLoop]
    rcases hfl : fitLoop fitLda fitNmf name nIter s.sampling s with ⟨s1, err⟩
    have hframe : SettingsFrame s s1 := by
      have h := fitLoop_frame fitLda fitNmf name nIter s.sampling s
      rw [hfl] at h
      exact h
    cases err with
    | some e =>
      exact List.Forall₂.cons ⟨rfl, hframe⟩ (forall₂_entryFrame_refl rest)
    | none =>
      exact List.Forall₂.cons ⟨rfl, hframe⟩ ih

/-- The stability pass frames every registry entry. -/
theorem compute_topic_stability_frame (ext : ExternalFns) (nRel : ℕ) :
    ∀ models : List (String × ModelSettings),
      List.Forall₂ EntryFrame models (compute_topic_stability ext nRel models).1 := by
  intro models
  induction models with
  | nil => exact List.Forall₂.nil
  | cons p rest ih =>
    obtain ⟨name, s⟩ := p
    simp only [compute_topic_stability]
    rcases hcs : computeSettingsStability ext nRel name s with ⟨s1, err⟩
    have hframe : SettingsFrame s s1 := by
      have h := stabLoop_frame ext nRel name s.sampling
        (create_ranking_vectors nRel s.samples) 0 s.samples s
      rw [show stabLoop ext nRel name s.sampling
        (create_ranking_vectors nRel s.samples) 0 s.samples s =
        computeSettingsStability ext nRel name s from rfl, hcs] at h
      exact h
    cases err with
    | some e =>
      exact List.Forall₂.cons ⟨rfl, hframe⟩ (forall₂_entryFrame_refl rest)
    | none =>
      exact List.Forall₂.cons ⟨rfl, hframe⟩ ih

/-- C10: `fit_models` (including its internal stability computation) never
modifies any context's `params`, `sampling`, `n_samples` or `data` entries,
and only ever appends to `samples`, `topic_terms`, `report` and
`report_full`: each entry of the registry before the call is framed by the
corresponding entry afterwards. -/
theorem fit_models_frame (fitLda fitNmf : FitFn) (ext : ExternalFns)
    (nIter nRel : ℕ) (models : List (String × ModelSettings)) :
    List.Forall₂ EntryFrame models
      (fit_models fitLda fitNmf ext nIter nRel models).1 := by
  unfold fit_models
  rcases hfm : fitModelsLoop fitLda fitNmf nIter models with ⟨ms, err⟩
  have h1 : List.Forall₂ EntryFrame models ms := by
    have h := fitModelsLoop_frame fitLda fitNmf nIter models
    rw [hfm] at h
    exact h
  cases err with
  | some e => exact h1
  | none => exact forall₂_entryFrame_trans h1 (compute_topic_stability_frame ext nRel ms)

/-! ## C6: run-groups with fewer than two runs -/

/-- `pdist` over a single observation yields no pairs. -/
theorem pdist_singleton {α : Type} (m : α → α → ℚ) (x : α) : pdist m [x] = [] := rfl

/-- The `report_full` statistics raise on an all-empty per-topic array:
with zero topics the axis is missing, otherwise the `min` reduction over
the empty pair axis has no identity. -/
theorem buildStats_all_empty (sq : ℚ → ℚ) (nt : ℕ) :
    ∃ e, buildStats sq ((List.range nt).map (fun _ => ([] : List ℚ))) = .error e := by
  cases nt with
  | zero => exact ⟨"AxisError", rfl⟩
  | succ k =>
    refine ⟨"ValueError", ?_⟩
    have hrows : (List.range (k + 1)).map (fun _ => ([] : List ℚ)) =
        List.replicate (k + 1) ([] : List ℚ) := by
      simp
    rw [hrows, List.replicate_succ]
    rfl

/-- A one-run group makes `sampleReport` raise, whatever the topic count:
every per-topic pair list is empty. -/
theorem sampleReport_single_errors (ext : ExternalFns) (name : String)
    (params : Config) (sid nt : ℕ) (t0 : List (List ℕ)) (d0 : List (List ℚ))
    (rvec : List (List (List ℕ))) :
    ∃ e, sampleReport ext name params sid nt [t0] [d0] rvec = .error e := by
  obtain ⟨e, he⟩ := buildStats_all_empty ext.sqrt nt
  refine ⟨e, ?_⟩
  simp only [sampleReport, topicRows, List.map_cons, List.map_nil, pdist,
    List.append_nil]
  rw [he]
  rfl

/-- C6: whenever some registered family holds a run-group with fewer than
two runs (empty or single-run), `_compute_topic_stability` raises — an
empty group at the `sample[0]` access, a single-run group at the zero-size
`min` reduction of `report_full` — instead of producing a stability report
with a defaulted pairwise value. -/
theorem stability_short_group_errors (ext : ExternalFns) (nRel : ℕ)
    (models : List (String × ModelSettings))
    (h : ∃ p ∈ models, ∃ g ∈ p.2.samples, g.length < 2) :
    ((compute_topic_stability ext nRel models).2).isSome = true := by
  have hloop : ∀ (name : String) (sampling : List Config)
      (rvecs : List (List (List (List ℕ)))) (sid : ℕ)
      (samples : List (List ModelArtifact)) (s : ModelSettings),
      (∃ g ∈ samples, g.length < 2) →
      ((stabLoop ext nRel name sampling rvecs sid samples s).2).isSome = true := by
    intro name sampling rvecs sid samples
    induction samples generalizing sid with
    | nil =>
      intro s hg
      simp at hg
    | cons g rest ih =>
      intro s hg
      obtain ⟨g', hg', hlen⟩ := hg
      rcases List.mem_cons.mp hg' with rfl | hmem
      · cases g' with
        | nil => simp [stabLoop, sampleTermsStage]
        | cons a tl =>
          cases tl with
          | cons b tl2 => simp at hlen; omega
          | nil =>
            simp only [stabLoop, sampleTermsStage, List.map_cons, List.map_nil]
            obtain ⟨e, he⟩ := sampleReport_single_errors ext name
              (sampling.getD sid []) sid a.n_components (get_top_terms a nRel)
              (normalizeRows a.components_) (rvecs.getD sid [])
            rw [he]
            simp
      · cases g with
        | nil => simp [stabLoop, sampleTermsStage]
        | cons a tl =>
          simp only [stabLoop, sampleTermsStage]
          split
          · simp
          · exact ih (sid + 1) _ ⟨g', hmem, hlen⟩
  induction models with
  | nil =>
    obtain ⟨p, hp, _⟩ := h
    cases hp
  | cons q rest ih =>
    obtain ⟨qn, qs⟩ := q
    obtain ⟨p, hp, g, hg, hlen⟩ := h
    simp only [compute_topic_stability]
    rcases List.mem_cons.mp hp with rfl | hmem
    · have hl := hloop qn qs.sampling (create_ranking_vectors nRel qs.samples)
        0 qs.samples qs ⟨g, hg, hlen⟩
      rcases hcs : computeSettingsStability ext nRel qn qs with ⟨s1, err⟩
      have hcs2 : stabLoop ext nRel qn qs.sampling
          (create_ranking_vectors nRel qs.samples) 0 qs.samples qs = (s1, err) := hcs
      rw [hcs2] at hl
      cases err with
      | some e => simp
      | none => simp at hl
    · rcases hcs : computeSettingsStability ext nRel qn qs with ⟨s1, err⟩
      cases err with
      | some e => simp
      | none =>
        dsimp only
        exact ih ⟨p, hmem, g, hg, hlen⟩

/-- The single-run artifact of the C6 witness. -/
def artC6 : ModelArtifact := ⟨[[1, 0]]⟩

/-- A C6 context holding one configuration whose run-group has exactly one
run. -/
def settingsC6 : ModelSettings :=
  { n_samples := 1, data := [[1]], params := [], sampling := [[]],
    samples := [[artC6]], topic_terms := [], report := [], report_full := [] }

/-- Witness for C6 at the concrete single-run context. -/
theorem stability_short_group_errors_witness :
    ((compute_topic_stability extZero 2
      [("sklearn_lda", settingsC6)]).2).isSome = true :=
  stability_short_group_errors extZero 2 [("sklearn_lda", settingsC6)]
    ⟨("sklearn_lda", settingsC6), by simp, [artC6], by simp [settingsC6], by simp⟩
